import Mathlib

/-!
Verification of the trie construction, persistence, freshness-check and
prefix-query engine of `john_lib` (`src/john_widgets/trie_core.py` and
`src/john_widgets/generate_trie.py`).

The Python code is shallowly embedded: dictionaries representing trie
nodes become an inductive rose tree whose children list preserves the
dict's insertion order (CPython dicts iterate in insertion order); the
`"__ids__"` entry of a node is kept in a separate `ids` field, which is
faithful for traversal because the code only tests membership of
`"__ids__"` and skips it when iterating children.  Document ids are
integers, as in the sample data.  File-system state (modification times,
artifact contents) is passed explicitly.
-/

/-! Section: Token normalization (trie_core.py line 30: `word.lower().strip()`) -/

/-- Per-character case folding, modelling Python `str.lower`. -/
def pyLower (l : List Char) : List Char := l.map Char.toLower

/-- Strip leading and trailing whitespace, modelling Python `str.strip()`. -/
def pyStrip (l : List Char) : List Char :=
  ((l.dropWhile Char.isWhitespace).reverse.dropWhile Char.isWhitespace).reverse

/-- The build-time normalization `word.lower().strip()` of
`TrieManager._add_to_trie` (trie_core.py line 30). -/
def cleanWord (w : String) : List Char := pyStrip (pyLower w.toList)

/-- Python `str.split(sep)` for a one-character separator, as used with
`self.separator` (default `;`) in trie_core.py line 70. -/
def pySplit (sep : Char) : List Char → List (List Char)
  | [] => [[]]
  | c :: rest =>
    match pySplit sep rest, c == sep with
    | r, true => [] :: r
    | [], false => [[c]]
    | h :: t, false => (c :: h) :: t

/-! Section: The id collection of a terminal node (trie_core.py lines 39-44) -/

/-- One id insertion into a node's `"__ids__"` list:
`if doc_id not in node["__ids__"]: node["__ids__"].append(doc_id)`
(trie_core.py lines 43-44). -/
def updateIds (l : List Int) (d : Int) : List Int :=
  if d ∈ l then l else l ++ [d]

/-- Modelled from the spec: "Document ids per node are deduplicated but
preserve first-seen insertion order" — keep the first occurrence of every
id and drop every later duplicate of it. -/
def firstSeenDedup : List Int → List Int
  | [] => []
  | d :: ds => d :: (firstSeenDedup ds).filter (fun x => x != d)

/-! Section: The id collection used by generate_trie.py (lines 28-30, 32-36)

`add_to_trie` in generate_trie.py stores ids in a Python `set` and
`set_default` serializes it with `list(obj)`.  A CPython `set` iterates in
hash-table order, not insertion order; for small non-negative integers
(below the initial table size 8) `hash(i) = i` and iteration order is
increasing value order.  The model keeps the set as a sorted list, which
is exact for such small ids. -/

/-- Model of `node["__ids__"].add(doc_id)` on a CPython set of small non-negative
integers, modelled as an ordered insertion into a sorted list (the set's
iteration order). -/
def updateIdsSet (s : List Int) (d : Int) : List Int :=
  if d ∈ s then s else s.orderedInsert (· ≤ ·) d

/-- Model of `list(obj)` in `set_default` (generate_trie.py lines 32-36): the set's
iteration order, which the model already stores. -/
def setToList (s : List Int) : List Int := s

/-! Section: The trie data model

A node is a Python dict whose keys are single characters (children, in
insertion order) plus possibly the reserved key `"__ids__"`. -/

inductive Trie where
  | node (ids : Option (List Int)) (children : List (Char × Trie))

/-- The `{}` a fresh node starts as. -/
def emptyTrie : Trie := .node none []

def Trie.idsOf : Trie → Option (List Int)
  | .node ids _ => ids

def Trie.childrenOf : Trie → List (Char × Trie)
  | .node _ cs => cs

/-- Dict lookup `node[char]` restricted to child edges, first match. -/
def lookupChild (cs : List (Char × Trie)) (c : Char) : Option Trie :=
  match cs with
  | [] => none
  | (c', t) :: rest => if c' = c then some t else lookupChild rest c

/-- Dict assignment `node[char] = t`: replace in place if the key exists,
otherwise append at the end (CPython dict insertion-order semantics). -/
def setChild (cs : List (Char × Trie)) (c : Char) (t : Trie) : List (Char × Trie) :=
  match cs with
  | [] => [(c, t)]
  | (c', t') :: rest =>
    if c' = c then (c', t) :: rest else (c', t') :: setChild rest c t

/-- The per-character walk/create loop of `_add_to_trie` (trie_core.py
lines 34-44) on an already-normalized word: descend one edge per
character, creating `{}` nodes as needed, and at the terminal node update
the `"__ids__"` list. -/
def insertTok (t : Trie) (w : List Char) (d : Int) : Trie :=
  match t, w with
  | .node ids cs, [] => .node (some (updateIds (ids.getD []) d)) cs
  | .node ids cs, c :: rest =>
    let sub := (lookupChild cs c).getD emptyTrie
    .node ids (setChild cs c (insertTok sub rest d))

/-- Embedding of `TrieManager._add_to_trie` (trie_core.py lines 27-44): normalize with
`word.lower().strip()`, return unchanged if the result is empty, else
insert. -/
def add_to_trie (t : Trie) (word : String) (docId : Int) : Trie :=
  let cw := cleanWord word
  if cw.isEmpty then t else insertTok t cw docId

/-- One row of the source table: `(doc_id, cell)` with `none` for a
missing (`pd.isna`) cell. -/
abbrev Row := Int × Option String

/-- The row loop of `TrieManager._generate_trie_if_needed` (trie_core.py
lines 64-73): skip missing cells, split the cell by the separator, insert
every item. -/
def buildTrie (rows : List Row) (sep : Char) : Trie :=
  rows.foldl
    (fun t r =>
      match r.2 with
      | none => t
      | some s =>
        (pySplit sep s.toList).foldl (fun t item => add_to_trie t (String.mk item) r.1) t)
    emptyTrie

/-! Section: The query engine (trie_core.py lines 91-120) -/

/-- The prefix-descent loop of `search` (trie_core.py lines 103-107):
follow one edge per character, `none` on the first missing edge. -/
def walkTrie (t : Trie) : List Char → Option Trie
  | [] => some t
  | c :: rest =>
    match lookupChild t.childrenOf c with
    | none => none
    | some t' => walkTrie t' rest

mutual

/-- Embedding of `TrieManager._dfs` (trie_core.py lines 114-120): emit the current word
if the node carries `"__ids__"`, then recurse into the children in dict
order, skipping the `"__ids__"` key. -/
def dfs : Trie → List Char → List (List Char)
  | .node ids cs, w => (if ids.isSome then [w] else []) ++ dfsChildren cs w

def dfsChildren : List (Char × Trie) → List Char → List (List Char)
  | [], _ => []
  | (c, t) :: rest, w => dfs t (w ++ [c]) ++ dfsChildren rest w

end

/-- Embedding of `TrieManager.search` (trie_core.py lines 91-112): empty or falsy
prefix returns `[]`; otherwise the prefix is lowercased (not stripped),
walked, and all words below the reached node are collected. -/
def search (t : Trie) (pfx : String) : List String :=
  if pfx.length < 1 then []
  else
    let p := pyLower pfx.toList
    match walkTrie t p with
    | none => []
    | some n => (dfs n p).map String.mk

/-- The ids recorded at the node reached by a path, `none` when the node
is missing or carries no `"__ids__"` key. -/
def idsAt (t : Trie) (p : List Char) : Option (List Int) :=
  (walkTrie t p).bind Trie.idsOf

/-- Whether at least one inserted token terminates at the node reached by
`p`, as observed through the `"__ids__"` key. -/
def hasIdsAt (t : Trie) (p : List Char) : Bool :=
  (idsAt t p).isSome

/-! Section: The worked scenario of the spec (§8) -/

def scenarioRows : List Row :=
  [(1, some "Tomato;Onion"), (2, some "tomato;Garlic"), (3, some "Onion")]

def scenarioTrie : Trie := buildTrie scenarioRows ';'

/-- One insertion step `insertTok t pr.1 pr.2`, the shape `buildTrie`
reduces to once empty tokens are filtered out. -/
def insStep (t : Trie) (pr : List Char × Int) : Trie := insertTok t pr.1 pr.2

/-- The `(cleaned token, doc_id)` pairs that actually reach `insertTok`
during `buildTrie`: missing cells skipped, cells split by the separator,
tokens normalized, empty tokens discarded. -/
def allInsertions (rows : List Row) (sep : Char) : List (List Char × Int) :=
  rows.flatMap
    (fun r =>
      match r.2 with
      | none => []
      | some s =>
        ((pySplit sep s.toList).map
          (fun item => (cleanWord (String.mk item), r.1))).filter
          (fun pr => !pr.1.isEmpty))

/-! Section: The persisted artifact

`json.dump` / `json.load` exchange JSON trees; `trie_core.py` performs no
validation of the loaded value, so the raw JSON tree is the loaded
`trie_root`. -/

inductive Json where
  | num (n : Int)
  | str (s : String)
  | arr (elems : List Json)
  | obj (members : List (String × Json))

/-- The failure of a JSON parse of the artifact file
(`json.JSONDecodeError`). -/
inductive JsonErr where
  | decodeError
deriving DecidableEq

mutual

/-- The JSON tree `json.dump` receives for a trie (trie_core.py line 79):
each node is an object with one single-character key per child (in dict
insertion order) and the reserved `"__ids__"` key holding the id list when
the node is terminal.  The model emits `"__ids__"` first among the
members; the claims under proof never depend on object-member order. -/
def serializeTrie : Trie → Json
  | .node ids cs =>
    .obj
      ((match ids with
        | none => []
        | some l => [("__ids__", Json.arr (l.map Json.num))]) ++
        serializeChildren cs)

def serializeChildren : List (Char × Trie) → List (String × Json)
  | [] => []
  | (c, t) :: rest => (String.singleton c, serializeTrie t) :: serializeChildren rest

end

mutual

/-- Every object key anywhere in a JSON tree is either the reserved
sentinel `"__ids__"` or a string of length exactly one. -/
def objKeysOK : Json → Bool
  | .num _ => true
  | .str _ => true
  | .arr es => arrKeysOK es
  | .obj ms => membersKeysOK ms

def arrKeysOK : List Json → Bool
  | [] => true
  | j :: rest => objKeysOK j && arrKeysOK rest

def membersKeysOK : List (String × Json) → Bool
  | [] => true
  | (k, v) :: rest => (k == "__ids__" || k.length == 1) && objKeysOK v && membersKeysOK rest

end

/-- Embedding of `TrieManager._load_trie` (trie_core.py lines 83-89).  The argument is
the state of the artifact file: `none` when the file is missing
(`FileNotFoundError`), `some (.error e)` when it exists but does not
parse (`json.JSONDecodeError`), `some (.ok j)` when it parses to `j`.
Both exceptional paths are caught and produce `trie_root = {}` after a
printed message; a parsed value is installed unvalidated. -/
def load_trie (file : Option (Except JsonErr Json)) : Json :=
  match file with
  | none => .obj []
  | some (.error _) => .obj []
  | some (.ok j) => j

/-! Section: Freshness checks -/

/-- Embedding of `_get_file_mtime` / `get_file_mtime`: `os.path.getmtime`, with any
`OSError` (missing or unreadable file) mapped to `0`.  A present file's
modification time is a non-negative timestamp, modelled as a natural
number. -/
def get_file_mtime (m : Option Nat) : Nat := m.getD 0

/-- The skip condition of `TrieManager._generate_trie_if_needed`
(trie_core.py line 50): `output_mtime > input_mtime and output_mtime > 0`. -/
def skipsGeneration (src out : Option Nat) : Bool :=
  decide (get_file_mtime out > get_file_mtime src) && decide (get_file_mtime out > 0)

/-- The skip condition of `generate_ingredients_trie` (generate_trie.py
line 42): `output_mtime > input_mtime` with no zero guard. -/
def skipsGenerationScript (src out : Option Nat) : Bool :=
  decide (get_file_mtime out > get_file_mtime src)

/-! Section: The write path (trie_core.py lines 76-79, generate_trie.py 62-63)

`open(output_json, 'w')` truncates whatever file is at the output path
and `json.dump` then writes the serialized trie into it; there is no
temporary file and no rename.  The write path is modelled as the sequence
of its two file-system effects, so that every crash point (every proper
prefix of the sequence) is a statable state. -/

inductive WriteStep where
  | truncate
  | writeContent (s : String)
deriving DecidableEq

/-- The file-system effects of the save code: truncating open, then the
full `json.dump` payload. -/
def writeArtifactSteps (content : String) : List WriteStep :=
  [.truncate, .writeContent content]

/-- Effect of one step on the artifact file (`none` = no file). -/
def applyWriteStep : Option String → WriteStep → Option String
  | _, .truncate => some ""
  | _, .writeContent s => some s

/-- The artifact file after executing a (possibly interrupted) sequence
of write steps. -/
def runWriteSteps (file : Option String) (steps : List WriteStep) : Option String :=
  steps.foldl applyWriteStep file

/-! Section: Dynamically-typed query input (trie_core.py lines 96-99)

`search` receives an arbitrary Python value.  `if not prefix or
len(prefix) < 1` first tests truthiness; for a truthy value `len` is
evaluated (raising `TypeError` on an int) and then `prefix.lower()`
(raising `AttributeError` on a list). -/

inductive PyVal where
  | pyNone
  | pyInt (n : Int)
  | pyStr (s : String)
  | pyList (xs : List Int)
deriving DecidableEq

inductive PyExn where
  | typeError
  | attributeError
deriving DecidableEq

/-- Python truthiness of the supported values. -/
def pyTruthy : PyVal → Bool
  | .pyNone => false
  | .pyInt n => n != 0
  | .pyStr s => s.length != 0
  | .pyList xs => !xs.isEmpty

/-- Embedding of `TrieManager.search` on a dynamically-typed prefix argument: falsy
values short-circuit to `[]` at `if not prefix`; truthy non-strings blow
up at `len(prefix)` or `prefix.lower()`; strings run the normal search. -/
def searchDyn (t : Trie) (p : PyVal) : Except PyExn (List String) :=
  if !pyTruthy p then .ok []
  else
    match p with
    | .pyNone => .ok []
    | .pyInt _ => .error .typeError
    | .pyList _ => .error .attributeError
    | .pyStr s => .ok (search t s)

/-- A Python value appearing in the result list of `search`: the code
appends plain strings (`results.append(current_word)`, trie_core.py line
116), while the spec's contract expects `(token, document_ids)` tuples;
the two kinds of value compare unequal in Python. -/
inductive PyRes where
  | str (s : String)
  | pair (tok : String) (ids : List Int)
deriving DecidableEq

/-! Section: The constructor pipeline (trie_core.py lines 7-19) -/

/-- The file-system state `TrieManager.__init__` starts from: the two
modification times, the readability/content of the source CSV (`none`
when `pd.read_csv` raises — file missing or required columns absent) and
the state of the artifact file. -/
structure Disk where
  srcMtime : Option Nat
  outMtime : Option Nat
  srcData : Option (List Row)
  artifact : Option (Except JsonErr Json)

/-- Embedding of `TrieManager._generate_trie_if_needed` (trie_core.py lines 46-81) as
a disk transformer: skip when the output is fresh; on a CSV read error
print and return with the disk untouched (nothing is written); otherwise
build from the rows and write the serialized trie to the artifact file,
whose modification time becomes the current time `now`. -/
def generate_trie_if_needed (sep : Char) (now : Nat) (d : Disk) : Disk :=
  if skipsGeneration d.srcMtime d.outMtime then d
  else
    match d.srcData with
    | none => d
    | some rows =>
      { d with
        artifact := some (.ok (serializeTrie (buildTrie rows sep)))
        outMtime := some now }

/-- Embedding of `TrieManager.__init__` (trie_core.py lines 14-19): run the freshness-
gated generation, then `_load_trie`, whose result is the `trie_root` that
`search` serves.  Total — no exception escapes on this path. -/
def initTrieManager (sep : Char) (now : Nat) (d : Disk) : Json :=
  load_trie (generate_trie_if_needed sep now d).artifact

/-! Section: Basic lemmas about the trie operations -/

theorem idsAt_empty (p : List Char) : idsAt emptyTrie p = none := by
  cases p <;> rfl

theorem idsAt_nil (ids : Option (List Int)) (cs : List (Char × Trie)) :
    idsAt (.node ids cs) [] = ids := rfl

theorem idsAt_cons (ids : Option (List Int)) (cs : List (Char × Trie))
    (a : Char) (p : List Char) :
    idsAt (.node ids cs) (a :: p) = (lookupChild cs a).bind (fun u => idsAt u p) := by
  cases h : lookupChild cs a <;> simp [idsAt, walkTrie, Trie.childrenOf, h]

theorem lookupChild_mem {cs : List (Char × Trie)} {c : Char} {t : Trie}
    (h : lookupChild cs c = some t) : (c, t) ∈ cs := by
  induction cs with
  | nil => simp [lookupChild] at h
  | cons hd rest ih =>
    obtain ⟨c', t'⟩ := hd
    by_cases hc : c' = c
    · subst hc
      simp [lookupChild] at h
      subst h
      exact List.mem_cons_self _ _
    · simp only [lookupChild, if_neg hc] at h
      exact List.mem_cons_of_mem _ (ih h)

theorem lookupChild_setChild (cs : List (Char × Trie)) (c c' : Char) (t : Trie) :
    lookupChild (setChild cs c t) c' =
      if c = c' then some t else lookupChild cs c' := by
  induction cs with
  | nil => simp [setChild, lookupChild]
  | cons hd rest ih =>
    obtain ⟨a, u⟩ := hd
    by_cases hac : a = c
    · subst hac
      by_cases h' : a = c' <;> simp [setChild, lookupChild, h']
    · by_cases h' : a = c'
      · have hcc : ¬c = c' := fun hc => hac (h'.trans hc.symm)
        have hca : ¬c' = c := fun hc => hac (h'.trans hc)
        simp [setChild, lookupChild, hac, h', hcc, hca]
      · simp [setChild, lookupChild, hac, h', ih]

theorem walkTrie_append (l1 l2 : List Char) :
    ∀ t : Trie, walkTrie t (l1 ++ l2) = (walkTrie t l1).bind (fun n => walkTrie n l2) := by
  induction l1 with
  | nil => intro t; rfl
  | cons c l ih =>
    intro t
    simp only [List.cons_append, walkTrie]
    cases lookupChild t.childrenOf c with
    | none => rfl
    | some t' => exact ih t'

theorem walkTrie_emptyTrie {l : List Char} (h : (walkTrie emptyTrie l).isSome) :
    l = [] := by
  cases l with
  | nil => rfl
  | cons c rest => simp [walkTrie, emptyTrie, Trie.childrenOf, lookupChild] at h

theorem idsAt_insertTok (w : List Char) :
    ∀ (t : Trie) (d : Int) (p : List Char),
      idsAt (insertTok t w d) p =
        if p = w then some (updateIds ((idsAt t p).getD []) d) else idsAt t p := by
  induction w with
  | nil =>
    intro t d p
    cases t with
    | node ids cs =>
      cases p with
      | nil => simp [insertTok, idsAt_nil]
      | cons a p' =>
        simp only [insertTok]
        rw [idsAt_cons, idsAt_cons]
        simp
  | cons b w' ih =>
    intro t d p
    cases t with
    | node ids cs =>
      cases p with
      | nil => simp [insertTok, idsAt_nil]
      | cons a p' =>
        simp only [insertTok]
        rw [idsAt_cons, idsAt_cons, lookupChild_setChild]
        by_cases hab : b = a
        · subst hab
          simp only [eq_self_iff_true, if_true, Option.some_bind]
          rw [ih]
          cases hlc : lookupChild cs b with
          | some orig =>
            simp only [hlc, Option.getD_some, Option.some_bind]
            by_cases hpw : p' = w' <;> simp [hpw]
          | none =>
            simp only [hlc, Option.getD_none, Option.none_bind]
            by_cases hpw : p' = w' <;> simp [hpw, idsAt_empty]
        · have hne : ¬(a :: p' = b :: w') := by
            intro h
            exact hab (List.cons_eq_cons.mp h).1.symm
          simp only [if_neg hab, if_neg hne]

theorem foldl_add_to_trie_eq (items : List (List Char)) (docId : Int) :
    ∀ t : Trie,
      items.foldl (fun t item => add_to_trie t (String.mk item) docId) t =
        ((items.map (fun item => (cleanWord (String.mk item), docId))).filter
          (fun pr => !pr.1.isEmpty)).foldl insStep t := by
  induction items with
  | nil => intro t; rfl
  | cons i rest ih =>
    intro t
    simp only [List.foldl_cons, List.map_cons, List.filter_cons]
    by_cases h : (cleanWord (String.mk i)).isEmpty
    · have ha : add_to_trie t (String.mk i) docId = t := by simp [add_to_trie, h]
      simp only [h, Bool.not_true, ha]
      rw [if_neg (by simp)]
      exact ih t
    · have hb : (!(cleanWord (String.mk i)).isEmpty) = true := by
        simp [h]
      have ha : add_to_trie t (String.mk i) docId =
          insertTok t (cleanWord (String.mk i)) docId := by
        simp [add_to_trie, h]
      rw [if_pos hb, List.foldl_cons, ha]
      exact ih _

theorem buildTrie_foldl_general (rows : List Row) (sep : Char) :
    ∀ t : Trie,
      rows.foldl
        (fun t r =>
          match r.2 with
          | none => t
          | some s =>
            (pySplit sep s.toList).foldl
              (fun t item => add_to_trie t (String.mk item) r.1) t)
        t =
      (allInsertions rows sep).foldl insStep t := by
  induction rows with
  | nil => intro t; rfl
  | cons r rest ih =>
    intro t
    rw [List.foldl_cons]
    cases hr : r.2 with
    | none =>
      simp only [hr]
      have hAll : allInsertions (r :: rest) sep = allInsertions rest sep := by
        simp [allInsertions, hr]
      rw [hAll]
      exact ih t
    | some s =>
      simp only [hr]
      have hAll : allInsertions (r :: rest) sep =
          ((pySplit sep s.toList).map
            (fun item => (cleanWord (String.mk item), r.1))).filter
            (fun pr => !pr.1.isEmpty) ++ allInsertions rest sep := by
        simp [allInsertions, hr]
      rw [hAll, List.foldl_append, foldl_add_to_trie_eq]
      exact ih _

theorem buildTrie_eq_foldl (rows : List Row) (sep : Char) :
    buildTrie rows sep = (allInsertions rows sep).foldl insStep emptyTrie :=
  buildTrie_foldl_general rows sep emptyTrie

theorem idsAt_foldl (L : List (List Char × Int)) :
    ∀ (t : Trie) (p : List Char),
      idsAt (L.foldl insStep t) p =
        ((L.filter (fun pr => decide (pr.1 = p))).map Prod.snd).foldl
          (fun o d => some (updateIds (o.getD []) d)) (idsAt t p) := by
  induction L with
  | nil => intro t p; rfl
  | cons pr L ih =>
    intro t p
    simp only [List.foldl_cons, List.filter_cons]
    rw [ih]
    by_cases h : pr.1 = p
    · rw [if_pos (by simp [h])]
      simp only [List.map_cons, List.foldl_cons, insStep]
      rw [idsAt_insertTok, if_pos h.symm]
    · rw [if_neg (by simp [h])]
      simp only [insStep]
      rw [idsAt_insertTok, if_neg (fun hh => h hh.symm)]

theorem optFold_some (ds : List Int) :
    ∀ l, ds.foldl (fun o d => some (updateIds (o.getD []) d)) (some l) =
      some (ds.foldl updateIds l) := by
  induction ds with
  | nil => intro l; rfl
  | cons d ds ih =>
    intro l
    simp only [List.foldl_cons, Option.getD_some]
    exact ih _

theorem optFold_none (ds : List Int) :
    ds.foldl (fun o d => some (updateIds (o.getD []) d)) none =
      if ds.isEmpty then none else some (ds.foldl updateIds []) := by
  cases ds with
  | nil => rfl
  | cons d ds =>
    simp only [List.foldl_cons, Option.getD_none, List.isEmpty_cons]
    rw [optFold_some, if_neg (by simp)]

theorem mem_firstSeenDedup (l : List Int) : ∀ x, x ∈ firstSeenDedup l ↔ x ∈ l := by
  induction l with
  | nil => intro x; simp [firstSeenDedup]
  | cons d ds ih =>
    intro x
    simp only [firstSeenDedup, List.mem_cons, List.mem_filter, ih, bne_iff_ne]
    by_cases hx : x = d <;> simp [hx]

theorem nodup_firstSeenDedup (l : List Int) : (firstSeenDedup l).Nodup := by
  induction l with
  | nil => exact List.nodup_nil
  | cons d ds ih =>
    refine List.Nodup.cons ?_ (ih.filter _)
    intro hmem
    have h2 := (List.mem_filter.mp hmem).2
    simp at h2

theorem foldl_updateIds_acc (ds : List Int) :
    ∀ acc : List Int,
      ds.foldl updateIds acc =
        acc ++ (firstSeenDedup ds).filter (fun x => decide (x ∉ acc)) := by
  induction ds with
  | nil => intro acc; simp [firstSeenDedup]
  | cons d ds ih =>
    intro acc
    simp only [List.foldl_cons]
    rw [ih (updateIds acc d)]
    by_cases hd : d ∈ acc
    · simp only [updateIds, if_pos hd, firstSeenDedup, List.filter_cons]
      rw [if_neg (by simp [hd]), List.filter_filter]
      congr 1
      apply List.filter_congr
      intro x _
      by_cases hx : x = d
      · subst hx; simp [hd]
      · simp [hx]
    · simp only [updateIds, if_neg hd, firstSeenDedup, List.filter_cons]
      rw [if_pos (by simp [hd]), List.filter_filter, List.append_assoc]
      congr 1
      rw [List.singleton_append]
      congr 1
      apply List.filter_congr
      intro x _
      by_cases hx : x = d
      · subst hx; simp
      · simp [hx, List.mem_append, hd]

theorem foldl_updateIds_eq_firstSeenDedup (ds : List Int) :
    ds.foldl updateIds [] = firstSeenDedup ds := by
  rw [foldl_updateIds_acc]
  simp

theorem mem_dfsChildren_of_child {cs : List (Char × Trie)} {c : Char} {t' : Trie}
    (h : (c, t') ∈ cs) (w : List Char) {x : List Char}
    (hx : x ∈ dfs t' (w ++ [c])) : x ∈ dfsChildren cs w := by
  induction cs with
  | nil => cases h
  | cons hd rest ih =>
    obtain ⟨a, u⟩ := hd
    rcases List.mem_cons.mp h with heq | hmem
    · obtain ⟨rfl, rfl⟩ := Prod.mk.injEq .. ▸ heq
      simp only [dfsChildren]
      exact List.mem_append_left _ hx
    · simp only [dfsChildren]
      exact List.mem_append_right _ (ih hmem)

theorem mem_dfs_of_children {ids : Option (List Int)} {cs : List (Char × Trie)}
    {w x : List Char} (hx : x ∈ dfsChildren cs w) : x ∈ dfs (.node ids cs) w := by
  simp only [dfs]
  exact List.mem_append_right _ hx

theorem search_push_subset (t : Trie) (p : String) (c : Char)
    (hp : 1 ≤ p.length) : ∀ x ∈ search t (p.push c), x ∈ search t p := by
  intro x hx
  have hlen : ¬(p.push c).length < 1 := by
    simp only [String.length_push]
    omega
  have hlp : ¬p.length < 1 := by omega
  simp only [search, if_neg hlen] at hx
  simp only [search, if_neg hlp]
  have hnorm : pyLower (p.push c).toList = pyLower p.toList ++ [c.toLower] := by
    simp [pyLower, String.push, String.toList]
  rw [hnorm, walkTrie_append] at hx
  cases hw : walkTrie t (pyLower p.toList) with
  | none => rw [hw] at hx; simp at hx
  | some n =>
    rw [hw] at hx
    simp only [Option.some_bind] at hx
    cases n with
    | node ids cs =>
      cases hlc : lookupChild cs c.toLower with
      | none =>
        simp [walkTrie, Trie.childrenOf, hlc] at hx
      | some m =>
        have hw2 : walkTrie (Trie.node ids cs) [c.toLower] = some m := by
          simp [walkTrie, Trie.childrenOf, hlc]
        rw [hw2] at hx
        obtain ⟨y, hy, rfl⟩ := List.mem_map.mp hx
        have hmem : y ∈ dfs (Trie.node ids cs) (pyLower p.toList) :=
          mem_dfs_of_children (mem_dfsChildren_of_child (lookupChild_mem hlc) _ hy)
        exact List.mem_map_of_mem _ hmem

theorem walk_insertTok_isSome (l : List Char) :
    ∀ (t : Trie) (w : List Char) (d : Int),
      (walkTrie (insertTok t w d) l).isSome →
        (walkTrie t l).isSome = true ∨ l <+: w := by
  induction l with
  | nil => intro t w d _; left; rfl
  | cons a l' ih =>
    intro t w d h
    cases t with
    | node ids cs =>
      cases w with
      | nil =>
        left
        simpa [insertTok, walkTrie, Trie.childrenOf] using h
      | cons b w' =>
        simp only [insertTok, walkTrie, Trie.childrenOf] at h
        rw [lookupChild_setChild] at h
        by_cases hba : b = a
        · subst hba
          rw [if_pos rfl] at h
          rcases ih _ w' d h with hsub | hpre
          · cases hlc : lookupChild cs b with
            | some orig =>
              rw [hlc] at hsub
              left
              simp only [walkTrie, Trie.childrenOf, hlc]
              simpa using hsub
            | none =>
              rw [hlc] at hsub
              have hl' : l' = [] := walkTrie_emptyTrie (by simpa using hsub)
              right
              subst hl'
              exact ⟨w', rfl⟩
          · right
            obtain ⟨r, hr⟩ := hpre
            exact ⟨r, by simp [← hr]⟩
        · rw [if_neg hba] at h
          left
          simp only [walkTrie, Trie.childrenOf]
          cases hlc : lookupChild cs a with
          | none => rw [hlc] at h; simp at h
          | some u => rw [hlc] at h; simpa using h

theorem walk_foldl_isSome (L : List (List Char × Int)) :
    ∀ (t : Trie) (l : List Char),
      (walkTrie (L.foldl insStep t) l).isSome →
        (walkTrie t l).isSome = true ∨ ∃ pr ∈ L, l <+: pr.1 := by
  induction L with
  | nil => intro t l h; left; exact h
  | cons pr L ih =>
    intro t l h
    rw [List.foldl_cons] at h
    rcases ih _ l h with h1 | ⟨q, hq, hpre⟩
    · simp only [insStep] at h1
      rcases walk_insertTok_isSome l t pr.1 pr.2 h1 with h2 | h2
      · left; exact h2
      · right; exact ⟨pr, List.mem_cons_self _ _, h2⟩
    · right; exact ⟨q, List.mem_cons_of_mem _ hq, hpre⟩

theorem search_eq_of_pyLower_eq (t : Trie) {p q : String}
    (h : pyLower p.toList = pyLower q.toList) : search t p = search t q := by
  have hlen : p.length = q.length := by
    have h2 := congrArg List.length h
    simpa [pyLower] using h2
  by_cases hl : p.length < 1
  · simp only [search]
    rw [if_pos hl, if_pos (hlen ▸ hl)]
  · simp only [search]
    rw [if_neg hl, if_neg (hlen ▸ hl), h]

theorem membersKeysOK_append (l1 l2 : List (String × Json)) :
    membersKeysOK (l1 ++ l2) = (membersKeysOK l1 && membersKeysOK l2) := by
  induction l1 with
  | nil => simp [membersKeysOK]
  | cons kv rest ih =>
    obtain ⟨k, v⟩ := kv
    simp [membersKeysOK, ih, Bool.and_assoc]

theorem arrKeysOK_map_num (l : List Int) : arrKeysOK (l.map Json.num) = true := by
  induction l with
  | nil => rfl
  | cons d ds ih => simp [arrKeysOK, objKeysOK, ih]

mutual

theorem objKeysOK_serializeTrie : ∀ t : Trie, objKeysOK (serializeTrie t) = true
  | .node ids cs => by
    simp only [serializeTrie, objKeysOK, membersKeysOK_append]
    rw [membersKeysOK_serializeChildren cs]
    cases ids with
    | none => simp [membersKeysOK]
    | some l =>
      simp [membersKeysOK, objKeysOK, arrKeysOK_map_num]

theorem membersKeysOK_serializeChildren :
    ∀ cs : List (Char × Trie), membersKeysOK (serializeChildren cs) = true
  | [] => rfl
  | (c, t) :: rest => by
    simp only [serializeChildren, membersKeysOK]
    rw [objKeysOK_serializeTrie t, membersKeysOK_serializeChildren rest]
    simp

end

theorem setFold_invariant (ds : List Int) :
    ∀ s : List Int, s.Sorted (· ≤ ·) → s.Nodup →
      (ds.foldl updateIdsSet s).Sorted (· ≤ ·) ∧ (ds.foldl updateIdsSet s).Nodup ∧
        ∀ x, x ∈ ds.foldl updateIdsSet s ↔ x ∈ s ∨ x ∈ ds := by
  induction ds with
  | nil =>
    intro s hs hn
    exact ⟨hs, hn, by simp⟩
  | cons d ds ih =>
    intro s hs hn
    rw [List.foldl_cons]
    by_cases hd : d ∈ s
    · have he : updateIdsSet s d = s := by simp [updateIdsSet, hd]
      rw [he]
      obtain ⟨h1, h2, h3⟩ := ih s hs hn
      refine ⟨h1, h2, fun x => ?_⟩
      rw [h3]
      simp only [List.mem_cons]
      constructor
      · rintro (hx | hx)
        · exact Or.inl hx
        · exact Or.inr (Or.inr hx)
      · rintro (hx | hx | hx)
        · exact Or.inl hx
        · exact Or.inl (hx ▸ hd)
        · exact Or.inr hx
    · have he : updateIdsSet s d = s.orderedInsert (· ≤ ·) d := by
        simp [updateIdsSet, hd]
      rw [he]
      have hperm := List.perm_orderedInsert (· ≤ ·) d s
      have hs' : (s.orderedInsert (· ≤ ·) d).Sorted (· ≤ ·) :=
        List.Sorted.orderedInsert d s hs
      have hn' : (s.orderedInsert (· ≤ ·) d).Nodup :=
        hperm.nodup_iff.mpr (List.nodup_cons.mpr ⟨hd, hn⟩)
      obtain ⟨h1, h2, h3⟩ := ih _ hs' hn'
      refine ⟨h1, h2, fun x => ?_⟩
      rw [h3, List.mem_orderedInsert]
      simp only [List.mem_cons]
      tauto

/-! Section: The claims -/

/-- C1 counterexample: on the spec's worked scenario the value `search`
returns for the prefix "tom" is the list holding the plain string
"tomato", not the claimed `(token, document_ids)` pair
`("tomato", [1, 2])`; the two Python values compare unequal. -/
theorem c1_counterexample :
    (search scenarioTrie "tom").map PyRes.str = [PyRes.str "tomato"] ∧
      [PyRes.str "tomato"] ≠ [PyRes.pair "tomato" [1, 2]] := by
  exact ⟨by decide, by decide⟩

/-- C1 (amended): `search` returns an ordered sequence of the matching
tokens only — the document ids are stored in the trie but not returned;
on the scenario rows with delimiter `;`, `search "tom" = ["tomato"]`
(ids `[1, 2]` at that token's node), `search "on" = ["onion"]` (ids
`[1, 3]`), and `search "z" = []`. -/
theorem c1_search_scenario :
    search scenarioTrie "tom" = ["tomato"] ∧
      search scenarioTrie "on" = ["onion"] ∧
      search scenarioTrie "z" = [] ∧
      idsAt scenarioTrie "tomato".toList = some [1, 2] ∧
      idsAt scenarioTrie "onion".toList = some [1, 3] := by
  refine ⟨by decide, by decide, by decide, by decide, by decide⟩

/-- C2 counterexample: the query path lowercases but does not trim, so
on the scenario trie `search "  TOM  "` is `[]` while `search "tom"` is
`["tomato"]` — the three claimed-identical calls are not identical. -/
theorem c2_counterexample :
    search scenarioTrie "Tom" = search scenarioTrie "tom" ∧
      search scenarioTrie "  TOM  " = [] ∧
      search scenarioTrie "tom" = ["tomato"] ∧
      search scenarioTrie "  TOM  " ≠ search scenarioTrie "tom" := by
  refine ⟨by decide, by decide, by decide, by decide⟩

/-- C2 (amended): the query path applies the same case folding as the
build path but not the build path's whitespace trimming: any two
prefixes with equal lowercasings — such as "Tom" and "tom" — give
identical results on every trie, while whitespace-padded prefixes are
searched verbatim. -/
theorem c2_search_case_insensitive (t : Trie) (p q : String)
    (h : pyLower p.toList = pyLower q.toList) : search t p = search t q :=
  search_eq_of_pyLower_eq t h

theorem c2_search_case_insensitive_witness :
    search scenarioTrie "Tom" = search scenarioTrie "tom" :=
  c2_search_case_insensitive scenarioTrie "Tom" "tom" (by decide)

/-- C3: in both builders the freshness check skips the rebuild iff the
output's modification time is strictly greater than the source's and
nonzero, a missing or unreadable file counting as mtime 0; equal mtimes
rebuild, and with both files missing a rebuild always occurs. -/
theorem c3_freshness_check :
    (∀ src out, skipsGeneration src out = true ↔
      get_file_mtime out > get_file_mtime src ∧ get_file_mtime out ≠ 0) ∧
      (∀ src out, skipsGenerationScript src out = true ↔
        get_file_mtime out > get_file_mtime src ∧ get_file_mtime out ≠ 0) ∧
      (∀ m, skipsGeneration (some m) (some m) = false ∧
        skipsGenerationScript (some m) (some m) = false) ∧
      skipsGeneration none none = false ∧ skipsGenerationScript none none = false := by
  refine ⟨fun src out => ?_, fun src out => ?_, fun m => ?_, by decide, by decide⟩
  · simp only [skipsGeneration, Bool.and_eq_true, decide_eq_true_eq]
    omega
  · simp only [skipsGenerationScript, decide_eq_true_eq]
    omega
  · constructor <;> simp [skipsGeneration, skipsGenerationScript, get_file_mtime]

theorem c3_freshness_check_witness :
    skipsGeneration (some 3) (some 5) = true ∧
      skipsGeneration (some 7) (some 7) = false :=
  ⟨(c3_freshness_check.1 (some 3) (some 5)).mpr (by decide),
    (c3_freshness_check.2.2.1 7).1⟩

/-- C4 counterexample: an unparseable persisted artifact does not fail
fast — `_load_trie` catches the decode error and silently installs the
empty trie — and a structurally invalid but well-formed JSON artifact
(here with the multi-character key "ab") is installed as-is with no
parse-error signal. -/
theorem c4_counterexample :
    load_trie (some (Except.error JsonErr.decodeError)) = Json.obj [] ∧
      load_trie (some (Except.ok (Json.obj [("ab", Json.num 1)]))) =
        Json.obj [("ab", Json.num 1)] :=
  ⟨rfl, rfl⟩

/-- C4 (amended): `_load_trie` never fails: a missing artifact or a JSON
decode failure is caught (only a message is printed) and yields the
empty trie, and any value that parses as JSON — however structurally
invalid as a trie — is installed without validation. -/
theorem c4_load_behavior :
    load_trie none = Json.obj [] ∧
      (∀ e, load_trie (some (Except.error e)) = Json.obj []) ∧
      (∀ j, load_trie (some (Except.ok j)) = j) :=
  ⟨rfl, fun _ => rfl, fun _ => rfl⟩

/-- C5 counterexample: the write path truncates the output file in place
before writing (`open(path, 'w')` then `json.dump`); interrupting right
after the truncating open leaves an empty file that is neither the
previous artifact "OLD" nor the new content "NEW". -/
theorem c5_counterexample :
    runWriteSteps (some "OLD") [WriteStep.truncate] = some "" ∧
      [WriteStep.truncate] <+: writeArtifactSteps "NEW" ∧
      runWriteSteps (some "OLD") [WriteStep.truncate] ≠ some "OLD" ∧
      runWriteSteps (some "OLD") [WriteStep.truncate] ≠ some "NEW" := by
  refine ⟨rfl, ⟨[WriteStep.writeContent "NEW"], rfl⟩, by decide, by decide⟩

/-- C5 (amended): the save path writes the artifact in place with no
staging and no rename: a completed run of its two file-system effects
leaves exactly the new content, but the state after the truncating open
alone is an empty file, regardless of the previously valid artifact. -/
theorem c5_write_in_place :
    (∀ prev content,
      runWriteSteps prev (writeArtifactSteps content) = some content) ∧
      ∀ prev, runWriteSteps prev [WriteStep.truncate] = some "" :=
  ⟨fun _ _ => rfl, fun _ => rfl⟩

/-- C6 counterexample: the set-backed builder of generate_trie.py
serializes ids in the set's iteration order, not first-seen order:
inserting doc ids 2 then 1 serializes as `[1, 2]`, while first-seen
insertion order is `[2, 1]`. -/
theorem c6_counterexample :
    setToList (([2, 1] : List Int).foldl updateIdsSet []) = [1, 2] ∧
      firstSeenDedup [2, 1] = [2, 1] ∧
      setToList (([2, 1] : List Int).foldl updateIdsSet []) ≠
        firstSeenDedup [2, 1] := by
  refine ⟨by decide, by decide, by decide⟩

/-- C6 (amended): in tries built by `TrieManager._add_to_trie` the id
list of every terminal node is deduplicated and keeps first-seen
insertion order, and is serialized into the artifact unchanged; the
set-backed builder of generate_trie.py also deduplicates, but its
serialized order is the set's iteration order (increasing value for
small non-negative ids), not first-seen insertion order. -/
theorem c6_ids_dedup_orders :
    (∀ rows sep p l, idsAt (buildTrie rows sep) p = some l →
      l = firstSeenDedup
        (((allInsertions rows sep).filter
          (fun pr => decide (pr.1 = p))).map Prod.snd) ∧ l.Nodup) ∧
      (∀ ids cs, serializeTrie (Trie.node (some ids) cs) =
        Json.obj (("__ids__", Json.arr (ids.map Json.num)) :: serializeChildren cs)) ∧
      (∀ ds : List Int,
        (setToList (ds.foldl updateIdsSet [])).Nodup ∧
          (∀ x, x ∈ setToList (ds.foldl updateIdsSet []) ↔ x ∈ ds) ∧
          (setToList (ds.foldl updateIdsSet [])).Sorted (· ≤ ·)) := by
  refine ⟨fun rows sep p l h => ?_, fun ids cs => rfl, fun ds => ?_⟩
  · rw [buildTrie_eq_foldl, idsAt_foldl, idsAt_empty, optFold_none] at h
    by_cases hds : (((allInsertions rows sep).filter
        (fun pr => decide (pr.1 = p))).map Prod.snd).isEmpty
    · rw [if_pos hds] at h
      cases h
    · rw [if_neg hds] at h
      have hl : l = firstSeenDedup
          (((allInsertions rows sep).filter
            (fun pr => decide (pr.1 = p))).map Prod.snd) := by
        have h2 := Option.some.injEq .. ▸ h
        rw [← foldl_updateIds_eq_firstSeenDedup]
        exact (Option.some_inj.mp h).symm
      exact ⟨hl, hl ▸ nodup_firstSeenDedup _⟩
  · obtain ⟨h1, h2, h3⟩ := setFold_invariant ds [] (List.sorted_nil) (List.nodup_nil)
    refine ⟨h2, fun x => ?_, h1⟩
    rw [setToList, h3 x]
    simp

theorem c6_ids_dedup_orders_witness :
    ([1, 2] : List Int) = firstSeenDedup
        (((allInsertions scenarioRows ';').filter
          (fun pr => decide (pr.1 = "tomato".toList))).map Prod.snd) ∧
      ([1, 2] : List Int).Nodup :=
  c6_ids_dedup_orders.1 scenarioRows ';' "tomato".toList [1, 2] (by decide)

/-- C7 counterexample: a truthy non-string input does not short-circuit
to an empty result: `search(5)` raises `TypeError` at `len(prefix)` and
`search([1])` raises `AttributeError` at `prefix.lower()`. -/
theorem c7_counterexample :
    searchDyn scenarioTrie (PyVal.pyInt 5) = Except.error PyExn.typeError ∧
      searchDyn scenarioTrie (PyVal.pyList [1]) =
        Except.error PyExn.attributeError :=
  ⟨rfl, rfl⟩

/-- C7 (amended): falsy inputs (None, 0, empty list, empty string)
short-circuit to an empty result, string inputs always return without
raising, and a prefix containing a character occurring in no indexed
token returns the empty result; but truthy non-string inputs raise an
exception instead of short-circuiting. -/
theorem c7_input_handling :
    (∀ t, searchDyn t PyVal.pyNone = Except.ok [] ∧
      searchDyn t (PyVal.pyInt 0) = Except.ok [] ∧
      searchDyn t (PyVal.pyList []) = Except.ok [] ∧
      searchDyn t (PyVal.pyStr "") = Except.ok []) ∧
      (∀ t s, searchDyn t (PyVal.pyStr s) = Except.ok (search t s)) ∧
      (∀ rows sep (s : String) (c : Char), c ∈ pyLower s.toList →
        (∀ pr ∈ allInsertions rows sep, c ∉ pr.1) →
        search (buildTrie rows sep) s = []) := by
  refine ⟨fun t => ⟨rfl, rfl, rfl, rfl⟩, fun t s => ?_, ?_⟩
  · by_cases h : s.length = 0
    · simp [searchDyn, pyTruthy, h, search]
    · simp [searchDyn, pyTruthy, h]
  · intro rows sep s c hc habs
    by_cases hl : s.length < 1
    · simp [search, hl]
    · cases hw : walkTrie (buildTrie rows sep) (pyLower s.toList) with
      | none =>
        have hw' : walkTrie (buildTrie rows sep) (pyLower s.data) = none := hw
        simp [search, hl, hw']
      | some n =>
        exfalso
        have hsome : (walkTrie (buildTrie rows sep) (pyLower s.toList)).isSome := by
          rw [hw]; rfl
        rw [buildTrie_eq_foldl] at hsome
        rcases walk_foldl_isSome _ _ _ hsome with hempty | ⟨pr, hpr, hpre⟩
        · have hnil := walkTrie_emptyTrie hempty
          rw [hnil] at hc
          cases hc
        · exact habs pr hpr (hpre.subset hc)

theorem c7_input_handling_witness :
    search (buildTrie scenarioRows ';') "zzz" = [] :=
  c7_input_handling.2.2 scenarioRows ';' "zzz" 'z' (by decide) (by decide)

/-- C8 counterexample: with the empty prefix the claimed monotonicity
fails: extending the empty prefix by the character t gives
`search "t" = ["tomato"]` on the scenario trie, while `search ""` is
`[]` by the empty-prefix guard, so the former is no subset of the
latter. -/
theorem c8_counterexample :
    search scenarioTrie ("".push 't') = ["tomato"] ∧
      search scenarioTrie "" = [] ∧
      "tomato" ∈ search scenarioTrie ("".push 't') ∧
      "tomato" ∉ search scenarioTrie "" := by
  refine ⟨by decide, by decide, by decide, by decide⟩

/-- C8 (amended): prefix monotonicity holds for every nonempty prefix:
for any prefix of length at least 1 and any one-character extension,
every result of the extended search is a result of the original search;
the empty prefix is excluded since its search is empty by the guard. -/
theorem c8_prefix_monotone (t : Trie) (p : String) (c : Char)
    (hp : 1 ≤ p.length) : ∀ x ∈ search t (p.push c), x ∈ search t p :=
  search_push_subset t p c hp

theorem c8_prefix_monotone_witness :
    "tomato" ∈ search scenarioTrie "to" :=
  c8_prefix_monotone scenarioTrie "to" 'm' (by decide) "tomato" (by decide)

/-- C9: every key in the serialized artifact of any trie is either the
reserved sentinel or a single-character string; the seven-character
sentinel can never equal a single-character edge key; and in every trie
built by the TrieManager builder, a node carries the sentinel entry iff
at least one inserted (normalized, nonempty) token terminates exactly at
that node. -/
theorem c9_key_invariants :
    (∀ t, objKeysOK (serializeTrie t) = true) ∧
      (("__ids__" : String).length = 7 ∧
        ∀ c : Char, String.singleton c ≠ "__ids__") ∧
      (∀ rows sep p, hasIdsAt (buildTrie rows sep) p = true ↔
        ∃ pr ∈ allInsertions rows sep, pr.1 = p) := by
  refine ⟨objKeysOK_serializeTrie, ⟨rfl, fun c h => ?_⟩, fun rows sep p => ?_⟩
  · have h2 : (1 : Nat) = 7 := congrArg String.length h
    cases h2
  · simp only [hasIdsAt]
    rw [buildTrie_eq_foldl, idsAt_foldl, idsAt_empty, optFold_none]
    by_cases hds : (((allInsertions rows sep).filter
        (fun pr => decide (pr.1 = p))).map Prod.snd).isEmpty
    · rw [if_pos hds]
      simp only [Option.isSome_none, Bool.false_eq_true, false_iff]
      rintro ⟨pr, hpr, hpr1⟩
      rw [List.isEmpty_iff, List.map_eq_nil_iff, List.filter_eq_nil_iff] at hds
      exact hds pr hpr (by simp [hpr1])
    · rw [if_neg hds]
      simp only [Option.isSome_some, true_iff]
      rw [List.isEmpty_iff, List.map_eq_nil_iff] at hds
      obtain ⟨pr, hpr⟩ := List.exists_mem_of_ne_nil _ hds
      have hmem := List.mem_filter.mp hpr
      exact ⟨pr, hmem.1, by simpa using hmem.2⟩

theorem c9_key_invariants_witness :
    hasIdsAt (buildTrie scenarioRows ';') "onion".toList = true :=
  (c9_key_invariants.2.2 scenarioRows ';' "onion".toList).mpr
    ⟨("onion".toList, 1), by decide, rfl⟩

/-- C10 counterexample: with a rebuild required and the CSV unreadable,
an artifact file that exists on disk but fails to parse still yields an
empty index, so "the index is empty only when no prior artifact exists
on disk" is false as stated. -/
theorem c10_counterexample :
    initTrieManager ';' 9
        ⟨some 5, some 3, none, some (Except.error JsonErr.decodeError)⟩ =
      Json.obj [] ∧
      (⟨some 5, some 3, none,
        some (Except.error JsonErr.decodeError)⟩ : Disk).artifact ≠ none :=
  ⟨rfl, fun h => Option.noConfusion h⟩

/-- C10 (amended): when a rebuild is required and the CSV read fails,
`__init__` raises nothing and writes nothing: it loads whatever artifact
already exists, serving the stale index whenever the artifact parses;
the resulting index is empty iff no prior artifact exists, the prior
artifact fails to parse, or it parses to the empty trie. -/
theorem c10_csv_failure_fallback (sep : Char) (now : Nat) (d : Disk)
    (hskip : skipsGeneration d.srcMtime d.outMtime = false)
    (hcsv : d.srcData = none) :
    initTrieManager sep now d = load_trie d.artifact ∧
      (∀ j, d.artifact = some (Except.ok j) → initTrieManager sep now d = j) ∧
      (initTrieManager sep now d = Json.obj [] ↔
        d.artifact = none ∨
          d.artifact = some (Except.error JsonErr.decodeError) ∨
          d.artifact = some (Except.ok (Json.obj []))) := by
  have hgen : generate_trie_if_needed sep now d = d := by
    simp [generate_trie_if_needed, hskip, hcsv]
  refine ⟨by simp [initTrieManager, hgen], fun j hj => ?_, ?_⟩
  · simp [initTrieManager, hgen, hj, load_trie]
  · cases ha : d.artifact with
    | none => simp [initTrieManager, hgen, ha, load_trie]
    | some res =>
      cases res with
      | error e =>
        cases e
        simp [initTrieManager, hgen, ha, load_trie]
      | ok j => simp [initTrieManager, hgen, ha, load_trie]

theorem c10_csv_failure_fallback_witness :
    initTrieManager ';' 9
        ⟨some 5, some 3, none,
          some (Except.ok (Json.obj [("a", Json.obj [])]))⟩ =
      Json.obj [("a", Json.obj [])] :=
  (c10_csv_failure_fallback ';' 9
      ⟨some 5, some 3, none, some (Except.ok (Json.obj [("a", Json.obj [])]))⟩
      (by decide) rfl).2.1 _ rfl
